import Mathlib

/-!
Verification of the document-to-chunk pipeline of the Financial-RAG-Chatbot
repository.  The Python sources are shallowly embedded: every definition below
mirrors a function of the repository (`backend/ingestion/chunking.py`,
`image/backend/ingestion/metadata_schema.py`,
`image/backend/app/services/retriever.py`,
`image/backend/app/services/citation.py`,
`image/backend/ingestion/parsers/html_parser.py`) or of the external
`langchain_text_splitters.RecursiveCharacterTextSplitter` library the chunker
delegates to.  Text is modelled as Lean `String` / `List Char`; Python's
whitespace `str.split()` and `" ".join` are given explicit executable
definitions.
-/

namespace RAG

/-- Accumulator worker for Python `str.split()`: `acc` holds the reversed
characters of the word currently being read. -/
def wordsA : List Char → List Char → List (List Char)
  | [], acc => if acc.isEmpty then [] else [acc.reverse]
  | c :: cs, acc =>
    if c.isWhitespace then
      (if acc.isEmpty then [] else [acc.reverse]) ++ wordsA cs []
    else wordsA cs (c :: acc)

/-- Python `str.split()` (no argument): split on runs of whitespace,
discarding empty pieces.  Defined on the character list of the string. -/
def words (l : List Char) : List (List Char) := wordsA l []

/-- Python `" ".join(ws)` on word lists. -/
def joinWords : List (List Char) → List Char
  | [] => []
  | [w] => w
  | w :: ws => w ++ ' ' :: joinWords ws

/-- Word count of a Python string: `len(t.split())`. -/
def wordCount (s : String) : Nat := (words s.data).length

/-- Python `str.lower()` (character-wise, which agrees with CPython on the
ASCII metadata handled here). -/
def pyLower (s : String) : String := String.mk (s.data.map Char.toLower)

def natToStrAux : Nat → Nat → List Char → List Char
  | 0, _, acc => acc
  | fuel+1, n, acc =>
    let d := Char.ofNat (48 + n % 10)
    if n < 10 then d :: acc else natToStrAux fuel (n / 10) (d :: acc)

/-- Python `str(n)` for a natural number (decimal digits). -/
def natToStr (n : Nat) : String := String.mk (natToStrAux (n + 1) n [])

theorem words_nil : words [] = [] := rfl

/-- A nonempty accumulator becomes the head word, extended by the leading
non-whitespace run of the remaining input. -/
theorem wordsA_acc (l : List Char) : ∀ acc : List Char, acc ≠ [] →
    wordsA l acc =
      (acc.reverse ++ l.takeWhile (fun x => !x.isWhitespace)) ::
        words (l.dropWhile (fun x => !x.isWhitespace)) := by
  induction l with
  | nil =>
    intro acc hne
    simp [wordsA, words, List.isEmpty_iff, hne]
  | cons c cs ih =>
    intro acc hne
    by_cases hws : c.isWhitespace
    · simp [wordsA, hws, List.isEmpty_iff, hne, List.takeWhile_cons,
        List.dropWhile_cons, words]
    · rw [show wordsA (c :: cs) acc = wordsA cs (c :: acc) by simp [wordsA, hws]]
      rw [ih (c :: acc) (by simp)]
      simp [List.takeWhile_cons, List.dropWhile_cons, hws]

theorem words_cons_ws (c : Char) (cs : List Char) (h : c.isWhitespace = true) :
    words (c :: cs) = words cs := by
  simp [words, wordsA, h]

theorem words_cons_not_ws (c : Char) (cs : List Char) (h : c.isWhitespace = false) :
    words (c :: cs) =
      (c :: cs.takeWhile (fun x => !x.isWhitespace)) ::
        words (cs.dropWhile (fun x => !x.isWhitespace)) := by
  rw [show words (c :: cs) = wordsA cs [c] by simp [words, wordsA, h]]
  rw [wordsA_acc cs [c] (by simp)]
  simp

/-- Every word produced by `words` is nonempty and whitespace-free. -/
theorem mem_words (l : List Char) :
    ∀ w ∈ words l, w ≠ [] ∧ ∀ c ∈ w, c.isWhitespace = false := by
  generalize hn : l.length = n
  induction n using Nat.strong_induction_on generalizing l with
  | _ n ih =>
    match l with
    | [] => simp [words_nil]
    | c :: cs =>
      by_cases hws : c.isWhitespace
      · rw [words_cons_ws c cs hws]
        intro w hw
        exact ih cs.length (by simp [← hn]) cs rfl w hw
      · rw [words_cons_not_ws c cs (by simp [hws])]
        intro w hw
        rcases List.mem_cons.mp hw with h | h
        · subst h
          refine ⟨by simp, ?_⟩
          intro x hx
          rcases List.mem_cons.mp hx with h | h
          · subst h; simp [hws]
          · have := List.mem_takeWhile_imp h
            simpa using this
        · have hlen := (List.dropWhile_sublist (l := cs)
            (fun x => !x.isWhitespace)).length_le
          exact ih (cs.dropWhile (fun x => !x.isWhitespace)).length
            (by simp [← hn]; omega) _ rfl w h

theorem takeWhile_append_word (w t : List Char)
    (hw : ∀ c ∈ w, c.isWhitespace = false) :
    (w ++ ' ' :: t).takeWhile (fun x => !x.isWhitespace) = w := by
  induction w with
  | nil => simp [List.takeWhile]
  | cons c cs ih =>
    have hc : c.isWhitespace = false := hw c (by simp)
    simp only [List.cons_append, List.takeWhile_cons, hc]
    simp only [Bool.not_false, if_true]
    rw [ih (fun x hx => hw x (by simp [hx]))]

theorem dropWhile_append_word (w t : List Char)
    (hw : ∀ c ∈ w, c.isWhitespace = false) :
    (w ++ ' ' :: t).dropWhile (fun x => !x.isWhitespace) = ' ' :: t := by
  induction w with
  | nil => simp [List.dropWhile]
  | cons c cs ih =>
    have hc : c.isWhitespace = false := hw c (by simp)
    simp only [List.cons_append, List.dropWhile_cons, hc]
    simp only [Bool.not_false, if_true]
    exact ih (fun x hx => hw x (by simp [hx]))

theorem words_single (w : List Char) (hne : w ≠ [])
    (hw : ∀ c ∈ w, c.isWhitespace = false) : words w = [w] := by
  match w, hne with
  | c :: cs, _ =>
    have hc : c.isWhitespace = false := hw c (by simp)
    rw [words_cons_not_ws c cs hc]
    have h1 : cs.takeWhile (fun x => !x.isWhitespace) = cs := by
      apply List.takeWhile_eq_self_iff.mpr
      intro x hx; simp [hw x (by simp [hx])]
    have h2 : cs.dropWhile (fun x => !x.isWhitespace) = [] := by
      apply List.dropWhile_eq_nil_iff.mpr
      intro x hx; simp [hw x (by simp [hx])]
    rw [h1, h2, words_nil]

theorem words_word_append (w t : List Char) (hne : w ≠ [])
    (hw : ∀ c ∈ w, c.isWhitespace = false) :
    words (w ++ ' ' :: t) = w :: words t := by
  match w, hne with
  | c :: cs, _ =>
    have hc : c.isWhitespace = false := hw c (by simp)
    rw [List.cons_append, words_cons_not_ws c (cs ++ ' ' :: t) hc]
    rw [takeWhile_append_word cs t (fun x hx => hw x (by simp [hx]))]
    rw [dropWhile_append_word cs t (fun x hx => hw x (by simp [hx]))]
    rw [words_cons_ws ' ' t (by decide)]

/-- `words` is a left inverse of `joinWords` on lists of nonempty
whitespace-free words. -/
theorem words_joinWords (ws : List (List Char))
    (h : ∀ w ∈ ws, w ≠ [] ∧ ∀ c ∈ w, c.isWhitespace = false) :
    words (joinWords ws) = ws := by
  induction ws with
  | nil => simp [joinWords, words_nil]
  | cons w ws ih =>
    match ws with
    | [] =>
      have := h w (by simp)
      simpa [joinWords] using words_single w this.1 this.2
    | w' :: rest =>
      have hw := h w (by simp)
      rw [show joinWords (w :: w' :: rest) = w ++ ' ' :: joinWords (w' :: rest) from rfl]
      rw [words_word_append w _ hw.1 hw.2]
      rw [ih (fun x hx => h x (by simp [hx]))]

/-- The word-slicing loop of `_split_large_blocks`
(`chunking.py`): repeatedly take `min(start_idx + max_block_tokens, total)`
words.  The Python loop does not terminate for `max_block_tokens = 0`; the
`max 1` guard makes the Lean function total and coincides with the source for
every `max_block_tokens ≥ 1`. -/
def wordChunksF (n : Nat) : Nat → List (List Char) → List (List (List Char))
  | 0, _ => []
  | _fuel+1, [] => []
  | fuel+1, w :: ws =>
    ((w :: ws).take (max 1 n)) :: wordChunksF n fuel ((w :: ws).drop (max 1 n))

def wordChunks (n : Nat) (ws : List (List Char)) : List (List (List Char)) :=
  wordChunksF n ws.length ws

theorem wordChunksF_congr (n : Nat) :
    ∀ (fuel1 fuel2 : Nat) (ws : List (List Char)),
      ws.length ≤ fuel1 → ws.length ≤ fuel2 →
      wordChunksF n fuel1 ws = wordChunksF n fuel2 ws := by
  intro fuel1
  induction fuel1 with
  | zero =>
    intro fuel2 ws h1 _h2
    have : ws = [] := List.length_eq_zero.mp (Nat.le_zero.mp h1)
    subst this
    cases fuel2 <;> rfl
  | succ f1 ih =>
    intro fuel2 ws h1 h2
    match ws with
    | [] => cases fuel2 <;> rfl
    | w :: ws' =>
      match fuel2 with
      | 0 => simp at h2
      | f2 + 1 =>
        show _ :: _ = _ :: _
        congr 1
        have hd : ((w :: ws').drop (max 1 n)).length ≤ ws'.length := by
          simp only [List.length_drop, List.length_cons]
          omega
        simp only [List.length_cons] at h1 h2
        exact ih f2 _ (by omega) (by omega)

theorem wordChunks_nil (n : Nat) : wordChunks n [] = [] := rfl

theorem wordChunks_cons (n : Nat) (w : List Char) (ws : List (List Char)) :
    wordChunks n (w :: ws) =
      ((w :: ws).take (max 1 n)) :: wordChunks n ((w :: ws).drop (max 1 n)) := by
  have h1 : wordChunks n (w :: ws) =
      ((w :: ws).take (max 1 n)) ::
        wordChunksF n ws.length ((w :: ws).drop (max 1 n)) := rfl
  rw [h1]
  congr 1
  refine wordChunksF_congr n ws.length _ _ ?_ le_rfl
  simp only [List.length_drop, List.length_cons]
  omega

theorem drop_len_lt_cons (n : Nat) (w : List Char) (ws : List (List Char)) :
    ((w :: ws).drop (max 1 n)).length < (w :: ws).length := by
  simp only [List.length_drop, List.length_cons]
  omega

/-- The sub-block word slices concatenate back to the original word list. -/
theorem wordChunks_flatten (n : Nat) (ws : List (List Char)) :
    (wordChunks n ws).flatten = ws := by
  generalize hn : ws.length = m
  induction m using Nat.strong_induction_on generalizing ws with
  | _ m ih =>
    match ws with
    | [] => simp [wordChunks_nil]
    | w :: ws =>
      rw [wordChunks_cons, List.flatten_cons,
        ih _ (hn ▸ drop_len_lt_cons n w ws) _ rfl, List.take_append_drop]

/-- Every slice has between 1 and `max 1 n` words. -/
theorem wordChunks_length (n : Nat) (ws : List (List Char)) :
    ∀ c ∈ wordChunks n ws, c ≠ [] ∧ c.length ≤ max 1 n := by
  generalize hn : ws.length = m
  induction m using Nat.strong_induction_on generalizing ws with
  | _ m ih =>
    match ws with
    | [] => simp [wordChunks_nil]
    | w :: ws =>
      rw [wordChunks_cons]
      intro c hc
      rcases List.mem_cons.mp hc with h | h
      · subst h
        constructor
        · intro hcontra
          have hlen2 := congrArg List.length hcontra
          simp only [List.length_take, List.length_cons, List.length_nil] at hlen2
          omega
        · simpa using List.length_take_le (max 1 n) (w :: ws)
      · exact ih _ (hn ▸ drop_len_lt_cons n w ws) _ rfl c h

/-! ### Structural document model (`image/backend/ingestion/metadata_schema.py`) -/

structure Line where
  line_number : Int
  text : String
deriving DecidableEq, Repr

inductive BlockType
  | paragraph
  | table
deriving DecidableEq, Repr

structure TableCell where
  row : Int
  col : Int
  text : String
deriving DecidableEq, Repr

/-- The `Block` dataclass.  Its fields are exactly `block_id`, `type`,
`page_number`, `text`, `lines`, `section`, `cells`; in particular there is no
`line_number`, `line_start` or `line_end` field.  (`section` is renamed to
`sectionLabel` because `section` is a Lean keyword.) -/
structure Block where
  block_id : String
  type : BlockType
  page_number : Option Int
  text : String
  lines : List Line
  sectionLabel : Option String := none
  cells : Option (List TableCell) := none
deriving DecidableEq, Repr

structure DocumentMetadata where
  doc_id : String
  ticker : String
  filing_type : String
  period : String
  source_url : Option String
  title : Option String := none
  /-- `local_path : Optional[Path]`, modelled by its string rendering. -/
  local_path : Option String := none
deriving DecidableEq, Repr

structure Document where
  metadata : DocumentMetadata
  blocks : List Block
deriving DecidableEq, Repr

/-! ### `_split_large_blocks` (`backend/ingestion/chunking.py`, lines 30-91)

For each block: `words = block.text.split()`; a block with
`len(words) <= max_block_tokens` passes through unchanged; otherwise the word
list is sliced into consecutive runs of `max_block_tokens` words.  Every field
of the parent dataclass is copied into each sub-block, then `block_id` and
`text` are overridden (`f"{block.block_id}_split_{i}"`, `" ".join(slice)`).
The estimated `line_start`/`line_end` values are computed but discarded,
because `line_start`/`line_end` are not fields of `Block`
(`"line_start" in allowed_keys` is false). -/

def splitOneBlock (block : Block) (max_block_tokens : Nat) : List Block :=
  let ws := words block.text.data
  if ws.length ≤ max_block_tokens then [block]
  else
    (wordChunks max_block_tokens ws).enum.map fun p =>
      { block with
          block_id := block.block_id ++ "_split_" ++ natToStr p.1
          text := String.mk (joinWords p.2) }

def splitLargeBlocks (blocks : List Block) (max_block_tokens : Nat) : List Block :=
  blocks.flatMap (fun b => splitOneBlock b max_block_tokens)

/-! ### `langchain_text_splitters.RecursiveCharacterTextSplitter`

`chunk_document` delegates passage splitting to this external library, called
with `chunk_size = max_tokens`, `chunk_overlap = overlap_tokens`,
`length_function = lambda t: len(t.split())` and the configured separators.
The library defaults apply: `keep_separator=True` (a separator is attached to
the piece that follows it, and merged chunks are joined with `""`),
`strip_whitespace=True`, `is_separator_regex=False` (separators are literal
strings).  The definitions below embed the library's `_split_text`,
`_split_text_with_regex`, `_merge_splits` and `_join_docs`. -/

/-- Python `str.strip()`: remove leading and trailing whitespace. -/
def stripChars (l : List Char) : List Char :=
  ((l.dropWhile Char.isWhitespace).reverse.dropWhile Char.isWhitespace).reverse

/-- Does the literal separator occur somewhere in the text
(`re.search(re.escape(sep), text)`)? -/
def containsSeq (sep : List Char) : List Char → Bool
  | [] => sep.isEmpty
  | c :: cs => sep.isPrefixOf (c :: cs) || containsSeq sep cs

/-- `re.split(re.escape(sep), text)` for a nonempty literal separator:
split at non-overlapping occurrences, scanning left to right.  Each step
consumes at least one character, so `fuel = text.length` always suffices and
the fuel-exhausted branch is unreachable (it is only ever hit with an empty
remainder, where it agrees with the empty-input branch). -/
def splitOnSepF (sep : List Char) : Nat → List Char → List Char → List (List Char)
  | 0, rest, acc => [acc.reverse ++ rest]
  | _fuel+1, [], acc => [acc.reverse]
  | fuel+1, c :: cs, acc =>
    if !sep.isEmpty && sep.isPrefixOf (c :: cs) then
      acc.reverse :: splitOnSepF sep fuel ((c :: cs).drop sep.length) []
    else splitOnSepF sep fuel cs (c :: acc)

/-- `_split_text_with_regex(text, sep, keep_separator=True)`: the separator is
kept, attached to the piece that follows it; empty pieces are dropped.  An
empty separator splits the text into single characters. -/
def splitPieces (sep : List Char) (text : List Char) : List (List Char) :=
  let splits :=
    if sep = [] then text.map (fun c => [c])
    else
      match splitOnSepF sep text.length text [] with
      | [] => []
      | t0 :: rest => t0 :: rest.map (fun t => sep ++ t)
  splits.filter (fun s => !s.isEmpty)

/-- The popping loop of `_merge_splits`: after a chunk is emitted, drop leading
pieces while the running total exceeds `chunk_overlap`, or while the next piece
would still overflow `chunk_size`.  (The merge separator is `""`, whose
measured length is `0`, so the `separator_len` terms vanish.) -/
def popWhile (size overlap lenD : Nat) :
    List (List Char) → Nat → List (List Char) × Nat
  | [], total => ([], total)
  | c :: cur, total =>
    if total > overlap ∨ (total + lenD > size ∧ total > 0) then
      popWhile size overlap lenD cur (total - (words c).length)
    else (c :: cur, total)

/-- `_join_docs(docs, "")`: concatenate, strip, drop if empty. -/
def joinDocs (docs : List (List Char)) : Option (List Char) :=
  let text := stripChars docs.flatten
  if text = [] then none else some text

/-- The accumulating loop of `_merge_splits` (merge separator `""`). -/
def mergeLoop (size overlap : Nat) :
    List (List Char) → List (List Char) → Nat → List (List Char) → List (List Char)
  | [], cur, _total, acc => acc ++ (joinDocs cur).toList
  | d :: rest, cur, total, acc =>
    let len := (words d).length
    if total + len > size then
      if cur = [] then
        mergeLoop size overlap rest (cur ++ [d]) (total + len) acc
      else
        let acc' := acc ++ (joinDocs cur).toList
        let p := popWhile size overlap len cur total
        mergeLoop size overlap rest (p.1 ++ [d]) (p.2 + len) acc'
    else
      mergeLoop size overlap rest (cur ++ [d]) (total + len) acc

def mergeSplits (size overlap : Nat) (splits : List (List Char)) : List (List Char) :=
  mergeLoop size overlap splits [] 0 []

/-- Separator selection at the top of `_split_text`: the first separator that
is empty or occurs in the text wins; the remaining separators become the
recursion list.  If none matches, the last separator is used with an empty
recursion list.  (Python indexes `separators[-1]`, which presupposes a
nonempty list; the repository always passes the nonempty default.) -/
def chooseSepAux (lastSep : List Char) :
    List (List Char) → List Char → List Char × List (List Char)
  | [], _ => (lastSep, [])
  | s :: rest, text =>
    if s = [] then ([], [])
    else if containsSeq s text then (s, rest)
    else chooseSepAux lastSep rest text

def chooseSep (seps : List (List Char)) (text : List Char) : List Char × List (List Char) :=
  chooseSepAux (seps.getLastD []) seps text

/-- The piece-processing loop of `_split_text`: pieces strictly shorter than
`chunk_size` (measured in words) are collected and merged; an oversized piece
flushes the collected pieces and is either recursed into (when finer
separators remain, `recurse = some f`) or emitted whole (`recurse = none`). -/
def processPieces (size overlap : Nat) (recurse : Option (List Char → List (List Char))) :
    List (List Char) → List (List Char) → List (List Char)
  | [], good => if good.isEmpty then [] else mergeSplits size overlap good
  | s :: rest, good =>
    if (words s).length < size then
      processPieces size overlap recurse rest (good ++ [s])
    else
      (if good.isEmpty then [] else mergeSplits size overlap good) ++
      (match recurse with
       | none => [s]
       | some f => f s) ++
      processPieces size overlap recurse rest []

/-- `_split_text(text, separators)`.  The recursion list shrinks strictly at
every level, so `fuel = separators.length + 1` never runs out; the `fuel = 0`
branch is unreachable from `splitText`. -/
def splitTextFuel (size overlap : Nat) :
    Nat → List (List Char) → List Char → List (List Char)
  | 0, _, text => [text]
  | fuel + 1, seps, text =>
    let sc := chooseSep seps text
    let pieces := splitPieces sc.1 text
    let recurse : Option (List Char → List (List Char)) :=
      if sc.2.isEmpty then none else some (splitTextFuel size overlap fuel sc.2)
    processPieces size overlap recurse pieces []

/-! ### `ChunkingConfig` and `chunk_document` (`backend/ingestion/chunking.py`) -/

/-- `ChunkingConfig`; `__post_init__` fills `separators` with the default
list when it is `None`, so the default is modelled directly. -/
structure ChunkingConfig where
  max_tokens : Nat := 800
  overlap_tokens : Nat := 200
  min_chunk_size : Nat := 100
  max_block_tokens : Nat := 500
  keep_tables_intact : Bool := true
  keep_charts_intact : Bool := true
  add_document_context : Bool := true
  add_section_headers : Bool := true
  use_semantic_boundaries : Bool := true
  separators : List String := ["\n\n", "\n", ". ", "! ", "? ", "; ", ", ", " ", ""]
deriving DecidableEq, Repr

/-- `splitter.split_text(block_text)` for the splitter built in
`chunk_document`. -/
def splitText (cfg : ChunkingConfig) (text : String) : List String :=
  let seps := cfg.separators.map String.data
  (splitTextFuel cfg.max_tokens cfg.overlap_tokens (seps.length + 1) seps text.data).map
    String.mk

/-- `_build_chunk_metadata` (`chunking.py`, lines 93-105), returning
`(line_start, line_end, page_start, page_end)`.  The comprehension collects
`b.line_number` guarded by `hasattr(b, "line_number")`; `Block` has no
`line_number` field, so that list is always empty. -/
def buildChunkMetadata (blocks : List Block) :
    Option Int × Option Int × Option Int × Option Int :=
  let line_numbers : List Int := []
  let page_numbers := blocks.filterMap (fun b => b.page_number)
  (line_numbers.min?, line_numbers.max?, page_numbers.min?, page_numbers.max?)

/-- Chunk metadata: the dict literal built in `chunk_document` has exactly
these keys, so it is modelled as a closed record. -/
structure ChunkMetadata where
  doc_id : String
  ticker : String
  filing_type : String
  period : String
  source_url : String
  title : String
  page_start : Option Int
  page_end : Option Int
  page_number : Option Int
  line_start : Option Int
  line_end : Option Int
  block_ids : String
  block_type : BlockType
  local_path : String
deriving DecidableEq, Repr

structure Chunk where
  chunk_id : String
  text : String
  metadata : ChunkMetadata
deriving DecidableEq, Repr

inductive ChunkError
  /-- The `ValueError` raised by the langchain `TextSplitter` constructor when
  `chunk_overlap > chunk_size`. -/
  | overlapGreaterThanSize
deriving DecidableEq, Repr

/-- The chunk built for one emitted passage in the loop body of
`chunk_document`: `blocks_in_chunk = [block]`, metadata from
`_build_chunk_metadata`, `chunk_id = f"{doc_id}_chunk_{idx}"`. -/
def mkChunk (doc : Document) (block : Block) (chunk_text : String) (idx : Nat) : Chunk :=
  let m := buildChunkMetadata [block]
  let line_start := m.1
  let line_end := m.2.1
  let page_start := m.2.2.1
  let page_end := m.2.2.2
  -- `page_number = page_start if page_start == page_end else None`
  let page_number := if page_start = page_end then page_start else none
  { chunk_id := doc.metadata.doc_id ++ "_chunk_" ++ natToStr idx
    text := chunk_text
    metadata :=
      { doc_id := doc.metadata.doc_id
        -- `doc.metadata.ticker.lower() if doc.metadata.ticker else ""`
        ticker := if doc.metadata.ticker = "" then "" else pyLower doc.metadata.ticker
        -- `doc.metadata.filing_type or ""` and `... period or ""` are the
        -- identity on `str` values
        filing_type := doc.metadata.filing_type
        period := doc.metadata.period
        source_url := doc.metadata.source_url.getD ""
        title := doc.metadata.title.getD ""
        page_start := page_start
        page_end := page_end
        page_number := page_number
        line_start := line_start
        line_end := line_end
        block_ids := block.block_id
        block_type := block.type
        local_path := doc.metadata.local_path.getD "" } }

/-- `chunk_document(doc, config)` (`chunking.py`, lines 108-160).  Oversized
blocks are pre-split, every resulting block's text is passed through the
recursive splitter, and one chunk per emitted passage is built with a global
running index starting at 1 (`f"{doc_id}_chunk_{len(all_chunks)+1}"`).
Constructing the splitter raises `ValueError` when
`overlap_tokens > max_tokens`. -/
def chunk_document (doc : Document) (config : ChunkingConfig) :
    Except ChunkError (List Chunk) :=
  if config.overlap_tokens > config.max_tokens then .error .overlapGreaterThanSize
  else
    let blocks := splitLargeBlocks doc.blocks config.max_block_tokens
    let pieces := blocks.flatMap fun b =>
      (splitText config b.text).map (fun t => (b, t))
    .ok <| pieces.enum.map fun p => mkChunk doc p.2.1 p.2.2 (p.1 + 1)

/-! ### `Retriever.retrieve` (`image/backend/app/services/retriever.py`)

Only the construction of the `where` filter dict is modelled; the similarity
query itself is the external vector store. -/

inductive WhereCond
  /-- `{"ticker": {"$in": [...]}} ` -/
  | tickerIn (tickers : List String)
  /-- `{"period": period}` -/
  | periodEq (period : String)
deriving DecidableEq, Repr

inductive WhereFilter
  /-- the empty dict `{}` -/
  | empty
  /-- a single bare condition, not wrapped in a combinator -/
  | cond (c : WhereCond)
  /-- `{"$and": [...]}` -/
  | and (conds : List WhereCond)
deriving DecidableEq, Repr

/-- The filter built by `Retriever.retrieve` from its `tickers` and `period`
keyword arguments.  Python truthiness: `if tickers:` is false for `None` and
for the empty list; `if period:` is false for `None` and `""`. -/
def retrieveWhere (tickers : Option (List String)) (period : Option String) :
    WhereFilter :=
  let conditions : List WhereCond :=
    (match tickers with
     | none => []
     | some ts => if ts = [] then [] else [WhereCond.tickerIn (ts.map pyLower)]) ++
    (match period with
     | none => []
     | some p => if p = "" then [] else [WhereCond.periodEq p])
  match conditions with
  | [] => .empty
  | [c] => .cond c
  | cs => .and cs

/-! ### `build_citations` (`image/backend/app/services/citation.py`)

Chunk metadata read back from the external store is dynamically typed
(`None`, `int` or `str`); `MetaVal` models those alternatives.  The float
`relevance_score` (`max(0, min(1, 1 - score/2))`) and the locator URL are not
modelled: neither bears on the page/line validation verified here. -/

inductive MetaVal
  | vnone
  | vint (i : Int)
  | vstr (s : String)
deriving DecidableEq, Repr

def parseDigitsAux : List Char → Nat → Option Nat
  | [], acc => some acc
  | c :: cs, acc =>
    if c.isDigit then parseDigitsAux cs (acc * 10 + (c.toNat - 48)) else none

/-- Python `int(s)` on a string: optional sign followed by decimal digits;
anything else raises `ValueError`, modelled as `none`. -/
def pyInt (s : String) : Option Int :=
  match s.data with
  | '-' :: ds => if ds = [] then none else (parseDigitsAux ds 0).map (fun n => -(n : Int))
  | '+' :: ds => if ds = [] then none else (parseDigitsAux ds 0).map (fun n => (n : Int))
  | ds => if ds = [] then none else (parseDigitsAux ds 0).map (fun n => (n : Int))

/-- Page extraction: `if page_start is not None and page_start != "":` then
`page_int = int(page_start)`, kept only when `page_int > 0`; a `ValueError`
from `int()` yields `None`. -/
def extractPage (v : MetaVal) : Option Int :=
  match v with
  | .vnone => none
  | .vint i => if i > 0 then some i else none
  | .vstr "" => none
  | .vstr s =>
    match pyInt s with
    | some i => if i > 0 then some i else none
    | none => none

/-- Line-bound extraction: `int(v) if v != 0 else None` under
`try/except → None`.  The guard compares the raw value with the int `0`:
the int `0` becomes `None`, but a string (never equal to an int in Python,
including `"0"`) is parsed and kept, as is any negative int. -/
def extractLine (v : MetaVal) : Option Int :=
  match v with
  | .vnone => none
  | .vint i => if i = 0 then none else some i
  | .vstr s =>
    match pyInt s with
    | some i => some i
    | none => none

/-- The metadata fields of a retrieved chunk that feed page/line validation. -/
structure CitChunkMeta where
  doc_id : String := ""
  ticker : String := ""
  page_start : MetaVal := .vnone
  line_start : MetaVal := .vnone
  line_end : MetaVal := .vnone
deriving DecidableEq, Repr

structure CitChunk where
  text : String
  metadata : CitChunkMeta
deriving DecidableEq, Repr

/-- The validated provenance fields of a `Citation`. -/
structure Citation where
  doc_id : String
  ticker : String
  page : Option Int
  line_start : Option Int
  line_end : Option Int
deriving DecidableEq, Repr

def buildCitation (ch : CitChunk) : Citation :=
  { doc_id := ch.metadata.doc_id
    ticker := ch.metadata.ticker
    page := extractPage ch.metadata.page_start
    line_start := extractLine ch.metadata.line_start
    line_end := extractLine ch.metadata.line_end }

def build_citations (chunks : List CitChunk) : List Citation :=
  chunks.map buildCitation

/-! ### HTML parser (`image/backend/ingestion/parsers/html_parser.py`)

The parsed markup is modelled as a node tree; `soup.find_all(["p", "div"])`
returns every matching element at any depth, in document order. -/

inductive HNode
  | elem (tag : String) (children : List HNode)
  | htext (s : String)

mutual
/-- The descendant strings of a node, in document order. -/
def textStrings : HNode → List String
  | .htext s => [s]
  | .elem _ ch => textStringsList ch

def textStringsList : List HNode → List String
  | [] => []
  | n :: ns => textStrings n ++ textStringsList ns
end

/-- `node.get_text(separator=" ", strip=True)`: strip each descendant string,
drop the empty ones, join with a single space. -/
def getText (n : HNode) : String :=
  String.mk (joinWords (((textStrings n).map
    (fun s => stripChars s.data)).filter (fun l => !l.isEmpty)))

/-- `_normalize_whitespace(text) = " ".join(text.split())`. -/
def normalizeWS (s : String) : String := String.mk (joinWords (words s.data))

mutual
/-- `soup.find_all(tags)`: every element whose tag is in `tags`, at any
nesting depth, in document order (an element precedes its descendants). -/
def findTags (tags : List String) : HNode → List HNode
  | .htext _ => []
  | .elem t ch =>
    (if t ∈ tags then [HNode.elem t ch] else []) ++ findTagsList tags ch

def findTagsList (tags : List String) : List HNode → List HNode
  | [] => []
  | n :: ns => findTags tags n ++ findTagsList tags ns
end

/-- The paragraph loop of `parse_html_to_document` (lines 32-45): one block
per `<p>`/`<div>` hit with non-empty normalized text; `block_index` advances
only when a block is appended.  (The table loop that follows appends table
blocks after these and is independent of the paragraph blocks.) -/
def htmlParagraphBlocks (roots : List HNode) : List Block :=
  let nodes := roots.flatMap (findTags ["p", "div"])
  let texts := (nodes.map (fun n => normalizeWS (getText n))).filter (fun t => t ≠ "")
  texts.enum.map fun p =>
    { block_id := "p_" ++ natToStr p.1
      type := .paragraph
      page_number := none
      text := p.2
      lines := [{ line_number := 1, text := p.2 }] }

/-- Modelled from the spec: "Treat every `<p>` and top-level `<div>` with
non-empty normalized text as a paragraph Block".  Counts `<p>` elements at any
depth plus `<div>` elements at the top level only, keeping those with
non-empty normalized text — the block count the spec sentence predicts. -/
def specParagraphCount (roots : List HNode) : Nat :=
  let ps := roots.flatMap (findTags ["p"])
  let topDivs := roots.filter fun n =>
    match n with
    | .elem t _ => t = "div"
    | .htext _ => false
  (((ps ++ topDivs).map (fun n => normalizeWS (getText n))).filter
    (fun t => t ≠ "")).length

/-! ### Concrete fixtures used by witnesses and counterexamples -/

def metaFix : DocumentMetadata :=
  { doc_id := "amzn-10k-2025"
    ticker := "AMZN"
    filing_type := "10-K"
    period := "Q3-2025"
    source_url := none }

def tableBlockC1 : Block :=
  { block_id := "t_1_0"
    type := .table
    page_number := some 1
    text := "r1c1 | r1c2\nr2c1 | r2c2"
    lines := [] }

def docC1 : Document := { metadata := metaFix, blocks := [tableBlockC1] }

def cfgC1 : ChunkingConfig :=
  { max_tokens := 2, overlap_tokens := 0, max_block_tokens := 2,
    keep_tables_intact := true }

def docC2 : Document :=
  { metadata := metaFix
    blocks := [{ block_id := "p_1_0"
                 type := .paragraph
                 page_number := some 1
                 text := "aa bb. cc dd. ee ff"
                 lines := [] }] }

def cfgC2 : ChunkingConfig := { max_tokens := 5, overlap_tokens := 1 }

/-- The last `n` whitespace-delimited words of a string. -/
def lastWordsOf (n : Nat) (s : String) : List (List Char) :=
  ((words s.data).reverse.take n).reverse

/-- The first `n` whitespace-delimited words of a string. -/
def firstWordsOf (n : Nat) (s : String) : List (List Char) :=
  (words s.data).take n

def docC4 : Document :=
  { metadata := metaFix
    blocks := [{ block_id := "p_1_0"
                 type := .paragraph
                 page_number := some 1
                 text := "a b"
                 lines := [] }] }

def cfgC4 : ChunkingConfig := { max_tokens := 2, overlap_tokens := 2 }

def blockC5 : Block :=
  { block_id := "p_1_0"
    type := .paragraph
    page_number := some 2
    text := "a b c"
    lines := [] }

def docC6 : Document :=
  { metadata := metaFix
    blocks := [{ block_id := "p_1_0"
                 type := .paragraph
                 page_number := some 1
                 text := "hello world"
                 lines := [] }] }

def cfgC6 : ChunkingConfig := {}

def chunksC6 : List Chunk := (chunk_document docC6 cfgC6).toOption.getD []

def chunkDummy : Chunk :=
  { chunk_id := ""
    text := ""
    metadata :=
      { doc_id := "", ticker := "", filing_type := "", period := ""
        source_url := "", title := "", page_start := none, page_end := none
        page_number := none, line_start := none, line_end := none
        block_ids := "", block_type := .paragraph, local_path := "" } }

def rootsC7 : List HNode := [.elem "div" [.elem "div" [.htext " hello \n"]]]

def blockDummyC7 : Block :=
  { block_id := "", type := .paragraph, page_number := none, text := "", lines := [] }

def docC9 : Document :=
  { metadata := { doc_id := "d9", ticker := "amzn", filing_type := "10-Q",
                  period := "Q3-2025", source_url := none }
    blocks := [{ block_id := "p_1_0"
                 type := .paragraph
                 page_number := some 7
                 text := "net sales rose"
                 lines := [] }] }

def cfgC9 : ChunkingConfig := {}

def chunksC9 : List Chunk := (chunk_document docC9 cfgC9).toOption.getD []

def chC10 : CitChunk :=
  { text := "total revenue was 143.1 billion"
    metadata := { doc_id := "d10", ticker := "amzn",
                  page_start := .vint (-3), line_start := .vint (-3),
                  line_end := .vint 0 } }

/-! ### Helper lemmas shared by the claim theorems -/

/-- `_normalize_whitespace` is idempotent: its output has all whitespace runs
collapsed to single spaces already. -/
theorem normalizeWS_idem (s : String) :
    normalizeWS (normalizeWS s) = normalizeWS s := by
  unfold normalizeWS
  congr 1
  have hd : (String.mk (joinWords (words s.data))).data
      = joinWords (words s.data) := rfl
  rw [hd, words_joinWords _ (mem_words s.data)]

/-- Words of a slice of `words l` are themselves words: nonempty and
whitespace-free. -/
theorem mem_wordChunks_words (l : List Char) (n : Nat)
    (c : List (List Char)) (hc : c ∈ wordChunks n (words l)) :
    ∀ w ∈ c, w ≠ [] ∧ ∀ x ∈ w, x.isWhitespace = false := by
  intro w hw
  have hwl : w ∈ words l := by
    have := List.mem_flatten.mpr ⟨c, hc, hw⟩
    rwa [wordChunks_flatten] at this
  exact mem_words l w hwl

theorem chunk_document_ok_mem (doc : Document) (cfg : ChunkingConfig)
    (cs : List Chunk) (c : Chunk) (h : chunk_document doc cfg = .ok cs)
    (hc : c ∈ cs) : ∃ b t i, c = mkChunk doc b t i := by
  unfold chunk_document at h
  split at h
  · exact absurd h (by simp)
  · simp only [Except.ok.injEq] at h
    subst h
    obtain ⟨p, _hp, rfl⟩ := List.mem_map.mp hc
    exact ⟨p.2.1, p.2.2, p.1 + 1, rfl⟩

theorem mkChunk_ticker (doc : Document) (b : Block) (t : String) (i : Nat) :
    (mkChunk doc b t i).metadata.ticker = pyLower doc.metadata.ticker := by
  unfold mkChunk
  by_cases h : doc.metadata.ticker = ""
  · simp only [h, if_pos]
    rfl
  · simp only [h, if_neg, ite_false]

/-! ### Claim C7 -/

/-- C7 counterexample: a `<div>` nested inside another `<div>` also produces a
paragraph block — `find_all(["p", "div"])` matches at any depth, not only the
top level, so the nested-div document yields two blocks (with duplicated
text), while the spec's "top-level `<div>`" reading predicts one. -/
theorem html_nested_div_cex :
    specParagraphCount rootsC7 = 1 ∧
    (htmlParagraphBlocks rootsC7).map Block.text = ["hello", "hello"] := by
  exact ⟨rfl, rfl⟩

/-- C7 (amended): the parser produces one paragraph block for every `<p>` and
every `<div>` at any nesting depth whose normalized text is non-empty (an
element with empty normalized text produces no block); each block is a
paragraph with `page_number` absent and whitespace-collapsed text
(normalization is idempotent on it). -/
theorem html_paragraph_blocks_spec (roots : List HNode) :
    (htmlParagraphBlocks roots).length =
      (((roots.flatMap (findTags ["p", "div"])).map
        (fun n => normalizeWS (getText n))).filter (fun t => t ≠ "")).length ∧
    ∀ b ∈ htmlParagraphBlocks roots,
      b.type = .paragraph ∧ b.page_number = none ∧ b.text ≠ "" ∧
        normalizeWS b.text = b.text := by
  constructor
  · simp [htmlParagraphBlocks]
  · intro b hb
    unfold htmlParagraphBlocks at hb
    obtain ⟨p, hp, rfl⟩ := List.mem_map.mp hb
    have hmem : p.2 ∈ ((roots.flatMap (findTags ["p", "div"])).map
        (fun n => normalizeWS (getText n))).filter (fun t => t ≠ "") := by
      have h2 := List.mem_map_of_mem Prod.snd hp
      rwa [List.enum_map_snd] at h2
    have hfil := List.mem_filter.mp hmem
    refine ⟨rfl, rfl, by simpa using hfil.2, ?_⟩
    obtain ⟨n, _hn, hform⟩ := List.mem_map.mp hfil.1
    show normalizeWS p.2 = p.2
    rw [← hform, normalizeWS_idem]

/-- C7 amended-claim witness at the nested-div fixture. -/
theorem html_paragraph_blocks_spec_witness :
    ((htmlParagraphBlocks rootsC7).headD blockDummyC7).page_number = none ∧
    normalizeWS ((htmlParagraphBlocks rootsC7).headD blockDummyC7).text =
      ((htmlParagraphBlocks rootsC7).headD blockDummyC7).text := by
  have h := (html_paragraph_blocks_spec rootsC7).2
    ((htmlParagraphBlocks rootsC7).headD blockDummyC7) (by decide)
  exact ⟨h.2.1, h.2.2.2⟩

/-! ### Claim C8 -/

/-- C8: the `where` filter built by `Retriever.retrieve` combines the ticker
and period conditions under an explicit `$and` only when both are present; a
single present condition is passed bare, unwrapped; with neither present the
empty filter `{}` is passed. -/
theorem retrieve_filter_combination :
    (∀ (ts : List String) (p : String), ts ≠ [] → p ≠ "" →
      retrieveWhere (some ts) (some p) =
        .and [.tickerIn (ts.map pyLower), .periodEq p]) ∧
    (∀ ts : List String, ts ≠ [] →
      retrieveWhere (some ts) none = .cond (.tickerIn (ts.map pyLower))) ∧
    (∀ p : String, p ≠ "" →
      retrieveWhere none (some p) = .cond (.periodEq p)) ∧
    retrieveWhere none none = .empty := by
  refine ⟨?_, ?_, ?_, rfl⟩
  · intro ts p hts hp
    simp [retrieveWhere, hts, hp]
  · intro ts hts
    simp [retrieveWhere, hts]
  · intro p hp
    simp [retrieveWhere, hp]

/-- C8 witness: both conditions present at a concrete request. -/
theorem retrieve_filter_combination_witness :
    retrieveWhere (some ["AMZN"]) (some "Q3-2025") =
      .and [.tickerIn ["amzn"], .periodEq "Q3-2025"] :=
  retrieve_filter_combination.1 ["AMZN"] "Q3-2025" (by decide) (by decide)

/-! ### Claim C9 -/

/-- C9: ticker case round-trips — every chunk stores the document ticker
lowercased, the retriever's filter condition carries the lowercased request
ticker (raw caller case never reaches the store), and a stored chunk matches
the `$in` list of a request whose ticker agrees up to case. -/
theorem ticker_case_roundtrip (doc : Document) (cfg : ChunkingConfig)
    (cs : List Chunk) (c : Chunk) (req : String)
    (h : chunk_document doc cfg = .ok cs) (hc : c ∈ cs) :
    c.metadata.ticker = pyLower doc.metadata.ticker ∧
    retrieveWhere (some [req]) none = .cond (.tickerIn [pyLower req]) ∧
    (pyLower req = pyLower doc.metadata.ticker →
      c.metadata.ticker ∈ [pyLower req]) := by
  obtain ⟨b, t, i, rfl⟩ := chunk_document_ok_mem doc cfg cs c h hc
  refine ⟨mkChunk_ticker doc b t i, by simp [retrieveWhere], ?_⟩
  intro hreq
  rw [mkChunk_ticker doc b t i, ← hreq]
  simp

/-- C9 witness: `docC9` stores ticker `"amzn"`; a request for `"AMZN"`
matches the stored chunk's ticker. -/
theorem ticker_case_roundtrip_witness :
    (chunksC9.headD chunkDummy).metadata.ticker ∈ [pyLower "AMZN"] :=
  (ticker_case_roundtrip docC9 cfgC9 chunksC9 (chunksC9.headD chunkDummy)
    "AMZN" rfl (by decide)).2.2 (by decide)

/-! ### Claim C10 -/

/-- C10 counterexample: a chunk whose metadata carries `line_start = -3`
yields a citation with `line_start = some (-3)` — the negative line value is
not treated as unknown, contradicting the claim that line bounds are
validated like pages; the same `-3` as a page is correctly dropped. -/
theorem citation_negative_line_cex :
    (build_citations [chC10]).map Citation.line_start = [some (-3)] ∧
    (build_citations [chC10]).map Citation.page = [none] := by
  exact ⟨rfl, rfl⟩

/-- C10 (amended): `build_citations` keeps a page only when the metadata value
converts to an int strictly greater than 0 (0, negative, unparsable and
missing values become absent); line bounds are weaker: only the exact int `0`
(or a missing/unparsable value) is treated as unknown, while negative ints and
numeric strings — including `"0"` — pass through as real line numbers. -/
theorem citation_page_line_validation (ch : CitChunk) (i : Int) :
    build_citations [ch] = [buildCitation ch] ∧
    (buildCitation ch).page = extractPage ch.metadata.page_start ∧
    (buildCitation ch).line_start = extractLine ch.metadata.line_start ∧
    (buildCitation ch).line_end = extractLine ch.metadata.line_end ∧
    extractPage (.vint i) = (if i > 0 then some i else none) ∧
    extractLine (.vint i) = (if i = 0 then none else some i) ∧
    extractPage .vnone = none ∧
    extractLine .vnone = none ∧
    extractPage (.vint 0) = none ∧
    extractLine (.vstr "0") = some 0 := by
  exact ⟨rfl, rfl, rfl, rfl, rfl, rfl, rfl, rfl, rfl, rfl⟩

/-! ### Claim C6 -/

/-- C6: `_build_chunk_metadata` probes a `line_number` attribute that the
`Block` dataclass does not define, so the collected list is always empty and
every chunk `chunk_document` ever emits has `line_start = line_end = None`:
no chunk carries line-range provenance. -/
theorem chunk_line_range_absent (doc : Document) (cfg : ChunkingConfig)
    (cs : List Chunk) (h : chunk_document doc cfg = .ok cs) :
    ∀ c ∈ cs, c.metadata.line_start = none ∧ c.metadata.line_end = none := by
  intro c hc
  obtain ⟨b, t, i, rfl⟩ := chunk_document_ok_mem doc cfg cs c h hc
  exact ⟨rfl, rfl⟩

/-- C6 witness: the chunk produced from `docC6` has absent line bounds. -/
theorem chunk_line_range_absent_witness :
    (chunksC6.headD chunkDummy).metadata.line_start = none ∧
    (chunksC6.headD chunkDummy).metadata.line_end = none :=
  chunk_line_range_absent docC6 cfgC6 chunksC6 rfl
    (chunksC6.headD chunkDummy) (by decide)

/-! ### Claim C5 -/

/-- C5: `_split_large_blocks` (for `max_block_tokens ≥ 1`) leaves a block at
or below the threshold unchanged, and replaces an oversized block with
consecutive sub-blocks each bounded by `max_block_tokens` words, each
inheriting the parent's `page_number` (and type), whose word sequences
concatenate to exactly the parent's word sequence — nothing lost or
duplicated, no overlap. -/
theorem split_large_blocks_spec (b : Block) (maxBT : Nat) (hBT : 1 ≤ maxBT) :
    (wordCount b.text ≤ maxBT → splitLargeBlocks [b] maxBT = [b]) ∧
    (maxBT < wordCount b.text →
      (∀ sb ∈ splitLargeBlocks [b] maxBT,
        wordCount sb.text ≤ maxBT ∧ sb.page_number = b.page_number ∧
          sb.type = b.type) ∧
      ((splitLargeBlocks [b] maxBT).map (fun sb => words sb.text.data)).flatten
        = words b.text.data) := by
  have hsl : splitLargeBlocks [b] maxBT = splitOneBlock b maxBT := by
    simp [splitLargeBlocks]
  have hmax : max 1 maxBT = maxBT := Nat.max_eq_right hBT
  constructor
  · intro hle
    rw [hsl]
    have hle' : (words b.text.data).length ≤ maxBT := hle
    simp only [splitOneBlock, hle', if_true]
  · intro hgt
    have hns : ¬ (words b.text.data).length ≤ maxBT := Nat.not_le.mpr hgt
    have hone : splitOneBlock b maxBT =
        (wordChunks maxBT (words b.text.data)).enum.map fun p =>
          { b with
              block_id := b.block_id ++ "_split_" ++ natToStr p.1
              text := String.mk (joinWords p.2) } := by
      simp only [splitOneBlock, hns, if_false]
    constructor
    · intro sb hsb
      rw [hsl, hone] at hsb
      obtain ⟨p, hp, rfl⟩ := List.mem_map.mp hsb
      have hpc : p.2 ∈ wordChunks maxBT (words b.text.data) := by
        have h2 := List.mem_map_of_mem Prod.snd hp
        rwa [List.enum_map_snd] at h2
      have hwords : words (String.mk (joinWords p.2)).data = p.2 :=
        words_joinWords p.2 (mem_wordChunks_words b.text.data maxBT p.2 hpc)
      refine ⟨?_, rfl, rfl⟩
      show (words (String.mk (joinWords p.2)).data).length ≤ maxBT
      rw [hwords]
      have := (wordChunks_length maxBT (words b.text.data) p.2 hpc).2
      rwa [hmax] at this
    · rw [hsl, hone, List.map_map]
      have hcongr :
          ((wordChunks maxBT (words b.text.data)).enum.map
            ((fun sb => words sb.text.data) ∘ fun p =>
              { b with
                  block_id := b.block_id ++ "_split_" ++ natToStr p.1
                  text := String.mk (joinWords p.2) })) =
          (wordChunks maxBT (words b.text.data)).enum.map Prod.snd := by
        apply List.map_congr_left
        intro p hp
        have hpc : p.2 ∈ wordChunks maxBT (words b.text.data) := by
          have h2 := List.mem_map_of_mem Prod.snd hp
          rwa [List.enum_map_snd] at h2
        exact words_joinWords p.2 (mem_wordChunks_words b.text.data maxBT p.2 hpc)
      rw [hcongr, List.enum_map_snd, wordChunks_flatten]

/-- C5 witness: the 3-word block `blockC5` with `max_block_tokens = 2` is
split into sub-blocks whose words concatenate back to the original words. -/
theorem split_large_blocks_spec_witness :
    ((splitLargeBlocks [blockC5] 2).map (fun sb => words sb.text.data)).flatten
      = words blockC5.text.data :=
  ((split_large_blocks_spec blockC5 2 (by decide)).2 (by decide)).2

/-! ### Claim C1 -/

/-- C1 counterexample: `keep_tables_intact = true`, yet the single table block
of `docC1` (6 words, `max_block_tokens = 2`) is split into 3 chunks, not 1:
the flag does not protect table blocks. -/
theorem table_block_split_cex :
    docC1.blocks.map Block.type = [BlockType.table] ∧
    cfgC1.keep_tables_intact = true ∧
    (chunk_document docC1 cfgC1).map List.length = .ok 3 := by
  refine ⟨rfl, rfl, ?_⟩
  rfl

/-- C1 (amended): `keep_tables_intact` is recognized by the config but never
read by `chunk_document`: flipping it changes nothing, so table blocks are
split by the oversized-block splitter and the recursive splitter exactly like
paragraph blocks, and a table block yields one chunk only when its word count
stays within the thresholds. -/
theorem keep_tables_intact_no_effect (doc : Document) (cfg : ChunkingConfig)
    (b : Bool) :
    chunk_document doc { cfg with keep_tables_intact := b } =
      chunk_document doc cfg := by
  cases cfg
  rfl

/-! ### Claim C2 -/

/-- C2 counterexample: `docC2`'s single paragraph block
`"aa bb. cc dd. ee ff"` with `max_tokens = 5`, `overlap_tokens = 1` yields the
consecutive chunks `"aa bb. cc dd"` and `". ee ff"`; the last word of the
first (`"dd"`) differs from the first word of the second (`"."`), so the
claimed exactly-`V`-word overlap fails. -/
theorem overlap_words_cex :
    (chunk_document docC2 cfgC2).map (List.map Chunk.text) =
      .ok ["aa bb. cc dd", ". ee ff"] ∧
    cfgC2.overlap_tokens = 1 ∧
    lastWordsOf 1 "aa bb. cc dd" ≠ firstWordsOf 1 ". ee ff" := by
  refine ⟨rfl, rfl, ?_⟩
  decide

/-- C2 (amended): the splitter's overlap is approximate, not exact.  When a
window is closed, the popping loop of `_merge_splits` retains trailing whole
passages whose total measured word count is at most `overlap_tokens` — possibly
zero passages, so consecutive chunks can share nothing; an exact `V`-word
overlap is not guaranteed. -/
theorem overlap_retained_at_most (size overlap lenD : Nat)
    (cur : List (List Char)) (total : Nat)
    (h : total = (cur.map (fun c => (words c).length)).sum) :
    (popWhile size overlap lenD cur total).2 ≤ overlap := by
  induction cur generalizing total with
  | nil =>
    simp at h
    simp [popWhile, h]
  | cons c cur ih =>
    by_cases hcond : total > overlap ∨ (total + lenD > size ∧ total > 0)
    · rw [popWhile, if_pos hcond]
      apply ih
      simp only [List.map_cons, List.sum_cons] at h
      omega
    · rw [popWhile, if_neg hcond]
      push_neg at hcond
      exact Nat.not_lt.mp (fun hlt => absurd hlt (Nat.not_lt.mpr hcond.1))

/-- C2 amended-claim witness: a concrete popping-loop run whose retained
total (`1` word) is within `overlap_tokens = 1`. -/
theorem overlap_retained_at_most_witness :
    (popWhile 5 1 3 [['a'], ['b']] 2).2 ≤ 1 :=
  overlap_retained_at_most 5 1 3 [['a'], ['b']] 2 (by decide)

/-! ### Claim C3 -/

/-- C3: `chunk_document` is deterministic — its embedding is a pure function
of the document and the configuration (the source reads no external state, no
randomness, no time), so equal inputs give identical chunk lists: byte-equal
text, equal chunk ids, equal order. -/
theorem chunk_document_deterministic (doc1 doc2 : Document)
    (cfg1 cfg2 : ChunkingConfig) (hd : doc1 = doc2) (hc : cfg1 = cfg2) :
    chunk_document doc1 cfg1 = chunk_document doc2 cfg2 := by
  subst hd hc
  rfl

/-- C3 witness: two runs on the concrete `docC2` with the same config. -/
theorem chunk_document_deterministic_witness :
    chunk_document docC2 cfgC2 = chunk_document docC2 cfgC2 :=
  chunk_document_deterministic docC2 docC2 cfgC2 cfgC2 rfl rfl

/-! ### Claim C4 -/

/-- C4 counterexample: `cfgC4` has `overlap_tokens = max_tokens = 2`
(so `overlap_tokens ≥ max_tokens`), yet no error of any kind is raised and a
chunk is produced — there is no `ChunkingConfigError` in the code, and the
underlying splitter only rejects `overlap_tokens > max_tokens`. -/
theorem overlap_eq_max_produces_chunks_cex :
    cfgC4.overlap_tokens ≥ cfgC4.max_tokens ∧
    (chunk_document docC4 cfgC4).map List.length = .ok 1 := by
  refine ⟨by decide, ?_⟩
  rfl

/-- C4 (amended): the code defines no `ChunkingConfigError` and validates
nothing up front; instead, when `overlap_tokens > max_tokens` (strictly), the
langchain splitter constructor invoked inside `chunk_document` raises
`ValueError`, after `_split_large_blocks` has already run; when
`overlap_tokens = max_tokens` the configuration is accepted and chunks are
produced (see the counterexample). -/
theorem overlap_gt_max_value_error (doc : Document) (cfg : ChunkingConfig)
    (h : cfg.overlap_tokens > cfg.max_tokens) :
    chunk_document doc cfg = .error .overlapGreaterThanSize := by
  unfold chunk_document
  rw [if_pos h]

/-- C4 witness: a config with `overlap_tokens = 3 > max_tokens = 2`. -/
theorem overlap_gt_max_value_error_witness :
    chunk_document docC4 { max_tokens := 2, overlap_tokens := 3 } =
      .error .overlapGreaterThanSize :=
  overlap_gt_max_value_error docC4 { max_tokens := 2, overlap_tokens := 3 }
    (by decide)

end RAG
